import Mathlib

/-!
Verification development for the cricket-scores feed parser
(src/cricketscores/scores.py).

The module is embedded shallowly:

* Python dictionaries become insertion-ordered association lists
  (`Dict`), with `dget` (first-match lookup, the keys are unique in
  every dict the code builds), `dset` (in-place overwrite or append,
  exactly like Python assignment into a dict) and `dupdate`
  (Python `dict.update`).
* BeautifulSoup nodes become the inductive `Node`: either a text node
  (NavigableString) or an element with a tag, attributes and ordered
  children.  `findAll` is the recursive, document-ordered
  `find_all`, `findFirst` is `find`, `getItem` is subscripting
  (`KeyError` on a missing attribute, `TypeError` when the receiver
  is a text node, mirroring Python string subscripting).
* Fallible code returns `Except Err`, where `Err` mirrors the Python
  exception classes that can escape each function.
* The external dateutil parser is modelled, for the single format the
  feed uses, by `dateutilParse`; the external HTTP fetch is modelled by
  passing a `Response` value to `request_matches`.
-/

namespace CricketScores

/-- Python exception kinds that the embedded code can raise. -/
inductive Err where
  | keyError
  | typeError
  | attributeError
  | valueError
  | fetchError (status : Nat)
deriving DecidableEq, Repr

/-- An absolute timestamp with a UTC-offset, the result of parsing the
feed date; `offset` is in minutes, 0 for GMT. -/
structure DateTime where
  year : Nat
  month : Nat
  day : Nat
  hour : Nat
  minute : Nat
  offset : Int := 0
deriving DecidableEq, Repr

/-- A Python float produced by parsing a decimal string, kept as the
exact decimal `mantissa / 10 ^ shift` (the feed only ever parses
decimals such as the overs figure; no arithmetic is done on them, so
the decimal value is a faithful model). -/
structure FloatVal where
  mantissa : Int
  shift : Nat
deriving DecidableEq, Repr

/-- Python values that appear inside a parsed match record. -/
inductive PyVal where
  | str (s : String)
  | int (n : Int)
  | float (q : FloatVal)
  | bool (b : Bool)
  | time (t : DateTime)
  | dict (fields : List (String × PyVal))
  | list (elems : List PyVal)
deriving Repr

/-- A Python dict with string keys: an insertion-ordered association
list.  Every dict built by the embedded code has pairwise-distinct
keys (`KeysNodup`). -/
abbrev Dict (V : Type) := List (String × V)

/-- Dict lookup (Python `d[k]` on present keys, `k in d` tests). -/
def dget {V : Type} (d : Dict V) (k : String) : Option V :=
  (d.find? (fun p => decide (p.1 = k))).map Prod.snd

/-- Python `d[k] = v`: overwrite in place if the key is present
(keeping its position), otherwise append at the end. -/
def dset {V : Type} (d : Dict V) (k : String) (v : V) : Dict V :=
  if d.any (fun p => decide (p.1 = k)) then
    d.map (fun p => if p.1 = k then (k, v) else p)
  else d ++ [(k, v)]

/-- Python `d.update(e)`: set every pair of `e` into `d`, in order. -/
def dupdate {V : Type} (d e : Dict V) : Dict V :=
  e.foldl (fun acc p => dset acc p.1 p.2) d

/-- The keys of the dict are pairwise distinct. -/
def KeysNodup {V : Type} (d : Dict V) : Prop :=
  (d.map Prod.fst).Nodup

/-- The last value written for key `k` by a sequence of records: the
value in the latest record of `rs` that defines `k`, if any. -/
def lastDef {V : Type} (rs : List (Dict V)) (k : String) : Option V :=
  match rs with
  | [] => none
  | r :: rest => (lastDef rest k).or (dget r k)

/-- A BeautifulSoup node: a NavigableString or a Tag with a name,
attributes and ordered children. -/
inductive Node where
  | text (s : String)
  | elem (tag : String) (attrs : Dict String) (children : List Node)
deriving Repr

/-- Subscripting a node, `node[key]`: attribute lookup on a Tag
(`KeyError` when absent), `TypeError` on a NavigableString. -/
def getItem (n : Node) (k : String) : Except Err String :=
  match n with
  | .text _ => .error .typeError
  | .elem _ attrs _ =>
      match dget attrs k with
      | some v => .ok v
      | none => .error .keyError

/-- Attribute lookup as an option (no exception bookkeeping). -/
def attr? (n : Node) (k : String) : Option String :=
  match getItem n k with
  | .ok v => some v
  | .error _ => none

/-- Attribute lookup with `""` as the default value. -/
def attrD (n : Node) (k : String) : String :=
  (attr? n k).getD ""

/-- Whether the node is a Tag (not a NavigableString). -/
def isElemNode (n : Node) : Bool :=
  match n with
  | .text _ => false
  | .elem _ _ _ => true

mutual
/-- All nodes with the given tag name in one subtree, its root
included, in document (preorder) order. -/
def findAllN (name : String) : Node → List Node
  | .text _ => []
  | .elem t a c =>
      (if t = name then [Node.elem t a c] else []) ++ findAllL name c

/-- All descendants with the given tag name, in document (preorder)
order, within a list of sibling subtrees: `find_all` of BeautifulSoup
restricted to those subtrees. -/
def findAllL (name : String) : List Node → List Node
  | [] => []
  | n :: rest => findAllN name n ++ findAllL name rest
end

/-- BeautifulSoup `find_all(name)`: all descendants of the node with
the given tag name, in document order (the node itself excluded). -/
def findAll (name : String) (n : Node) : List Node :=
  match n with
  | .text _ => []
  | .elem _ _ c => findAllL name c

/-- BeautifulSoup `find(name)`: the first matching descendant, if
any. -/
def findFirst (name : String) (n : Node) : Option Node :=
  (findAll name n).head?

/-- Direct children of a node (`tag.children`); a NavigableString has
none (the code never asks for them). -/
def childrenOf (n : Node) : List Node :=
  match n with
  | .text _ => []
  | .elem _ _ c => c

/-- Whether a child compares equal to the Python string newline: `True`
exactly for a text node whose content is the single newline
character (the comparison `child != chr(10)` in the source is the
negation of this). -/
def isNewlineText (n : Node) : Bool :=
  match n with
  | .text s => s = "\n"
  | .elem _ _ _ => false

/-- Python truthiness of a BeautifulSoup node: a Tag is truthy iff it
has at least one child (Tag defines only a length), a
NavigableString iff it is non-empty. -/
def nodeTruthy (n : Node) : Bool :=
  match n with
  | .text s => s ≠ ""
  | .elem _ _ c => !c.isEmpty

/-- Python truthiness of a `find` result: `None` is falsy. -/
def optTruthy (n : Option Node) : Bool :=
  match n with
  | none => false
  | some x => nodeTruthy x

/-- Python `bool(s)` on a string: `False` only for the empty string
(note: `bool` of the one-character string digit zero is `True`). -/
def pyBoolStr (s : String) : Bool :=
  s ≠ ""

/-- Numeric value of a digit string (most significant digit first). -/
def digitsVal (cs : List Char) : Nat :=
  cs.foldl (fun a c => a * 10 + (c.toNat - 48)) 0

/-- A non-empty all-digit character list, parsed to a natural. -/
def parseDigits? (cs : List Char) : Option Nat :=
  if cs ≠ [] ∧ cs.all Char.isDigit then some (digitsVal cs) else none

/-- Python `int(s)`: surrounding whitespace stripped, an optional
sign, then decimal digits; anything else raises `ValueError`. -/
def pyInt (s : String) : Option Int :=
  match (s.toList.dropWhile (· = ' ')).reverse.dropWhile (· = ' ') |>.reverse with
  | '-' :: rest => (parseDigits? rest).map (fun n => -(n : Int))
  | '+' :: rest => (parseDigits? rest).map Int.ofNat
  | cs => (parseDigits? cs).map Int.ofNat

/-- Value of an integer part and a fractional part, both digit lists,
as an exact decimal (the fragment of Python `float` the feed uses). -/
def pyFloatParts? (intPart fracPart : List Char) : Option FloatVal :=
  if (intPart ++ fracPart) ≠ [] ∧ intPart.all Char.isDigit ∧ fracPart.all Char.isDigit
  then some { mantissa := (digitsVal (intPart ++ fracPart) : Int), shift := fracPart.length }
  else none

/-- Python `float(s)` on the decimal strings the feed uses: optional
sign, digits with at most one decimal point (no exponents, which the
feed never produces); anything else raises `ValueError`. -/
def pyFloat (s : String) : Option FloatVal :=
  let core := fun (cs : List Char) (neg : Bool) =>
    (match cs.splitOn '.' with
     | [i] => pyFloatParts? i []
     | [i, f] => pyFloatParts? i f
     | _ => none).map (fun (q : FloatVal) => if neg then { q with mantissa := -q.mantissa } else q)
  match (s.toList.dropWhile (· = ' ')).reverse.dropWhile (· = ' ') |>.reverse with
  | '-' :: rest => core rest true
  | '+' :: rest => core rest false
  | cs => core cs false

/-- Split a character list into space-separated words. -/
def splitWords (cs : List Char) : List String :=
  ((cs.splitOn ' ').filter (· ≠ [])).map List.asString

/-- Month number of an English month name, full or three-letter. -/
def monthNum (s : String) : Option Nat :=
  match s with
  | "January" => some 1 | "Jan" => some 1
  | "February" => some 2 | "Feb" => some 2
  | "March" => some 3 | "Mar" => some 3
  | "April" => some 4 | "Apr" => some 4
  | "May" => some 5
  | "June" => some 6 | "Jun" => some 6
  | "July" => some 7 | "Jul" => some 7
  | "August" => some 8 | "Aug" => some 8
  | "September" => some 9 | "Sep" => some 9
  | "October" => some 10 | "Oct" => some 10
  | "November" => some 11 | "Nov" => some 11
  | "December" => some 12 | "Dec" => some 12
  | _ => none

/-- Modelled from the spec: the external `dateutil.parser.parse`
collaborator, restricted to the one shape the feed produces and the
spec describes (section 4.3) — a day number, an English month name, a
year, a four-digit `HHMM` start time, and the literal zone `GMT`,
separated by spaces.  Any other shape is a parse failure
(`ValueError`). -/
def dateutilParse (s : String) : Option DateTime :=
  match splitWords s.toList with
  | [dayS, monS, yearS, hmS, zone] =>
      if zone = "GMT" then
        match parseDigits? dayS.toList, monthNum monS, parseDigits? yearS.toList with
        | some day, some mon, some year =>
            match hmS.toList with
            | [h1, h2, m1, m2] =>
                if ([h1, h2, m1, m2].all Char.isDigit) then
                  some { year := year, month := mon, day := day,
                         hour := digitsVal [h1, h2], minute := digitsVal [m1, m2],
                         offset := 0 }
                else none
            | _ => none
        | _, _, _ => none
      else none
  | _ => none

/-! Embeddings of the functions of src/cricketscores/scores.py. -/

/-- Copy items from `source` to `sink` if they exist (the source
function of the same name).  The source argument may be the result of
a `find`, hence `Option Node`: subscripting `None` raises `TypeError`,
which the loop does not catch — it catches only `KeyError`, the
missing-attribute case, which it skips silently. -/
def _transfer_dict_keys (key_pairs : List (String × String)) (source : Option Node)
    (sink : Dict PyVal) : Except Err (Dict PyVal) :=
  key_pairs.foldlM
    (fun sink p =>
      match source with
      | none => .error .typeError
      | some n =>
          match getItem n p.1 with
          | .ok v => .ok (dset sink p.2 (PyVal.str v))
          | .error .keyError => .ok sink
          | .error e => .error e)
    sink

/-- One team dict, from the Name and id attributes of a Tm element. -/
def teamVal (t : Node) : Except Err PyVal := do
  let n ← getItem t "Name"
  let i ← getItem t "id"
  pure (PyVal.dict [("name", .str n), ("id", .str i)])

/-- Get real names for the teams involved in the match: every `Tm`
descendant yields a name/id dict; if their number is not exactly two
the result is Python `None`. -/
def _get_teams (m : Node) : Except Err (Option (List PyVal)) := do
  let teams ← (findAll "Tm" m).mapM teamVal
  if teams.length ≠ 2 then pure none else pure (some teams)

/-- Pull the time out of the time element: concatenate the date and
start-time attributes with a trailing zone marker and hand the string
to the dateutil parser.  Subscripting a `None` find-result raises
`TypeError`; an unparseable string raises the dateutil
`ValueError`. -/
def _construct_time (time_element : Option Node) : Except Err DateTime :=
  match time_element with
  | none => .error .typeError
  | some n => do
      let date ← getItem n "Dt"
      let start_time ← getItem n "stTme"
      match dateutilParse (date ++ " " ++ start_time ++ " GMT") with
      | some t => pure t
      | none => .error .valueError

/-- One side of an innings (shared shape of the batting and bowling
halves of `_parse_innings`): the fields are built in the order the
Python dict literal evaluates them. -/
def parseSide (side : Node) : Except Err PyVal := do
  let team ← getItem side "sName"
  let declS ← inngsItem side "Decl"
  let foS ← inngsItem side "FollowOn"
  let ovrsS ← inngsItem side "ovrs"
  let ovrs ← toFl ovrsS
  let rS ← inngsItem side "r"
  let r ← toInt rS
  let wS ← inngsItem side "wkts"
  let w ← toInt wS
  pure (PyVal.dict
    [("team", .str team), ("declare", .bool (pyBoolStr declS)),
     ("follow_on", .bool (pyBoolStr foS)), ("overs", .float ovrs),
     ("runs", .int r), ("wickets", .int w)])
where
  /-- `side.Inngs[key]`: find the Inngs descendant (attribute-style
  access is a recursive `find`; on `None` the subscript raises
  `TypeError`) and read an attribute from it. -/
  inngsItem (side : Node) (key : String) : Except Err String :=
    match findFirst "Inngs" side with
    | none => .error .typeError
    | some i => getItem i key
  /-- Python `float(s)`, `ValueError` on failure. -/
  toFl (s : String) : Except Err FloatVal :=
    match pyFloat s with
    | some q => .ok q
    | none => .error .valueError
  /-- Python `int(s)`, `ValueError` on failure. -/
  toInt (s : String) : Except Err Int :=
    match pyInt s with
    | some n => .ok n
    | none => .error .valueError

/-- Parse an innings from the three constituent parts (the detail
element has things like the required run rate and is discarded). -/
def _parse_innings (detail bat bowl : Node) : Except Err PyVal := do
  let _ := detail
  let batting ← parseSide bat
  let bowling ← parseSide bowl
  pure (PyVal.dict [("batting", batting), ("bowling", bowling)])

/-- Get the score info.  Faithful to the source: the children list is
filtered of the children equal to the newline string only; fewer than
three remaining children is a `TypeError` (too few arguments for
`_parse_innings`); when more than three remain, the source calls
`append` on the dict returned by `_parse_innings`, which raises
`AttributeError` — and the value returned in the three-children case
is that dict itself, not a list. -/
def _parse_score (score_element : Node) : Except Err PyVal :=
  match score_element with
  | .text _ => .error .attributeError
  | .elem _ _ cs =>
      match cs.filter (fun c => !isNewlineText c) with
      | d :: b :: w :: rest => do
          let score ← _parse_innings d b w
          if rest.isEmpty then pure score else .error .attributeError
      | _ => .error .typeError

/-- The attribute pairs copied from the match element itself. -/
def base_keys : List (String × String) :=
  [("datapath", "datapath"), ("id", "id"), ("inngCnt", "innings_count"),
   ("grnd", "ground"), ("mchDesc", "description"), ("vcity", "city"),
   ("vcountry", "country"), ("type", "format"), ("mnum", "match_num")]

/-- The attribute pairs copied from the nested state element. -/
def state_keys : List (String × String) :=
  [("TW", "toss_won"), ("decisn", "decision"), ("mchState", "state"),
   ("status", "result_text")]

/-- `data.update(zip(two output keys, teams))` guarded by the
truthiness of `teams`: `None` and the empty list add nothing; `zip`
truncates at the shorter sequence. -/
def addTeams (data : Dict PyVal) (teams : Option (List PyVal)) : Dict PyVal :=
  match teams with
  | none => data
  | some [] => data
  | some [t1] => dset data "team_one" t1
  | some (t1 :: t2 :: _) => dset (dset data "team_one" t1) "team_two" t2

/-- Get all the info we can out of one match object and its
children. -/
def _parse_single_match (m : Node) : Except Err (Dict PyVal) := do
  let data ← _transfer_dict_keys base_keys (some m) []
  let teams ← _get_teams m
  let data := addTeams data teams
  let data ← _transfer_dict_keys state_keys (findFirst "state" m) data
  let t ← _construct_time (findFirst "Tme" m)
  let data := dset data "time" (.time t)
  match findFirst "mscr" m with
  | some s =>
      if nodeTruthy s then do
        let sc ← _parse_score s
        pure (dset data "score" sc)
      else pure data
  | none => pure data

/-- Stick a bunch of representations of the same match together:
parse each and `update` a single dict with the results in order. -/
def _join_match_group (ms : List Node) : Except Err (Dict PyVal) :=
  ms.foldlM
    (fun data m => do
      let r ← _parse_single_match m
      pure (dupdate data r))
    ([] : Dict PyVal)

/-- One step of the grouping fold: append the item to its group if the
key value was seen, otherwise open a new group at the end (the
OrderedDict of the source). -/
def insertGroup (gs : List (String × List Node)) (v : String) (item : Node) :
    List (String × List Node) :=
  if gs.any (fun p => decide (p.1 = v)) then
    gs.map (fun p => if p.1 = v then (p.1, p.2 ++ [item]) else p)
  else gs ++ [(v, [item])]

/-- Group a sequence of data by values for a key; reading the key from
an item that lacks it raises `KeyError`, uncaught.  The source returns
the groups in first-seen key order. -/
def _group_by (key : String) (data : List Node) : Except Err (List (List Node)) := do
  let gs ← data.foldlM
    (fun gs item => do
      let v ← getItem item key
      pure (insertGroup gs v item))
    ([] : List (String × List Node))
  pure (gs.map Prod.snd)

/-- Parse out the matches XML into something more useful and remove
duplicates.  The string-to-tree step of BeautifulSoup is the external
XML collaborator; the embedding starts from the parsed tree. -/
def _parse_matches (xml_tree : Node) : Except Err (List (Dict PyVal)) := do
  let groups ← _group_by "datapath" (findAll "match" xml_tree)
  groups.mapM _join_match_group

/-- The relevant parts of an HTTP response from the feed endpoint: the
status code and the (already tree-parsed) body. -/
structure Response where
  status_code : Nat
  tree : Node

/-- Ask cricbuzz what is going on: on status 200 parse the body,
otherwise raise carrying the observed status code. -/
def request_matches (result : Response) : Except Err (List (Dict PyVal)) :=
  if result.status_code = 200 then _parse_matches result.tree
  else .error (.fetchError result.status_code)

/-! Notions used by the claim statements. -/

/-- The computation raised an exception. -/
def errs {α : Type} (x : Except Err α) : Prop :=
  ∃ e, x = Except.error e

/-- Whether the value is a Python list. -/
def isListVal (v : PyVal) : Bool :=
  match v with
  | .list _ => true
  | _ => false

/-- A whitespace-only text node (what the spec calls a pure-whitespace
text child; the source filters only the exact newline string). -/
def isWsText (n : Node) : Bool :=
  match n with
  | .text s => s.data.all Char.isWhitespace
  | .elem _ _ _ => false

/-- The boolean-coercion rule asserted by the claim (stated from the
claim wording, for comparison with the coercion `pyBoolStr` the code
performs): true exactly for a string that is non-empty and not the
zero string. -/
def specBoolRule (s : String) : Bool :=
  decide (s ≠ "") && decide (s ≠ "0")

/-- The side of an innings has every attribute the innings parser
reads: it is a Tag carrying a short-name, with an Inngs descendant
carrying the declare, follow-on, overs, runs and wickets
attributes. -/
def hasReqAttrs (n : Node) : Bool :=
  isElemNode n && (attr? n "sName").isSome &&
    (match findFirst "Inngs" n with
     | some i =>
         (attr? i "Decl").isSome && (attr? i "FollowOn").isSome &&
           (attr? i "ovrs").isSome && (attr? i "r").isSome && (attr? i "wkts").isSome
     | none => false)

/-- The sublist of first occurrences: each distinct element of the
list once, in order of its first appearance. -/
def firstOccur {α : Type} [DecidableEq α] : List α → List α
  | [] => []
  | a :: l => a :: firstOccur (l.filter (fun x => decide (x ≠ a)))
termination_by l => l.length
decreasing_by
  simpa [Nat.lt_succ_iff] using List.length_filter_le _ l

/-! Concrete feed fragments used as witnesses. -/

/-- A team element. -/
def exTmA : Node := .elem "Tm" [("Name", "AUS"), ("id", "1")] []

/-- A second team element. -/
def exTmB : Node := .elem "Tm" [("Name", "ENG"), ("id", "2")] []

/-- A state element. -/
def exState : Node := .elem "state" [("TW", "AUS"), ("mchState", "inprogress")] []

/-- A time element. -/
def exTme : Node := .elem "Tme" [("Dt", "12 May 2016"), ("stTme", "1400")] []

/-- A minimal well-formed match element for datapath 123 (most
optional attributes absent). -/
def exMin : Node := .elem "match" [("datapath", "123")] [exState, exTme]

/-- A duplicate report of the match of `exMin`: same datapath, now
with an id, a city and the two team elements. -/
def exFull : Node :=
  .elem "match" [("datapath", "123"), ("id", "9"), ("vcity", "Hobart")]
    [exState, exTme, exTmA, exTmB]

/-- A well-formed match element for another datapath. -/
def exOther : Node := .elem "match" [("datapath", "456")] [exState, exTme]

/-- A match element with no state descendant. -/
def exNoState : Node := .elem "match" [("datapath", "123")] [exTme]

/-- A full feed document: two duplicate reports of match 123 and one
of match 456. -/
def exTree : Node :=
  .elem "document" [] [.elem "mstr" [] [exMin, exFull, exOther]]

/-- The raw match elements of `exTree`. -/
def exMs : List Node := [exMin, exFull, exOther]

/-- The groups the deduplicator forms on `exMs`. -/
def exGroups : List (List Node) := [[exMin, exFull], [exOther]]

/-- The record list obtained by merging each group of `exGroups`. -/
def exRecs : List (Dict PyVal) :=
  match exGroups.mapM _join_match_group with
  | .ok r => r
  | .error _ => []

/-- The parsed record of `exMin`. -/
def exRecMin : Dict PyVal :=
  match _parse_single_match exMin with
  | .ok d => d
  | .error _ => []

/-- The parsed record of `exFull`. -/
def exRecFull : Dict PyVal :=
  match _parse_single_match exFull with
  | .ok d => d
  | .error _ => []

/-- An Inngs element with ordinary figures. -/
def exInngs : Node :=
  .elem "Inngs"
    [("Decl", ""), ("FollowOn", ""), ("ovrs", "34.2"), ("r", "150"), ("wkts", "4")] []

/-- An Inngs element whose declare and follow-on flags are the zero
string. -/
def exInngsZero : Node :=
  .elem "Inngs"
    [("Decl", "0"), ("FollowOn", "0"), ("ovrs", "34.2"), ("r", "150"), ("wkts", "4")] []

/-- A batting-side element. -/
def exBat : Node := .elem "btTm" [("sName", "AUS")] [exInngs]

/-- A bowling-side element. -/
def exBowl : Node := .elem "blTm" [("sName", "ENG")] [exInngs]

/-- A batting-side element whose flags are the zero string. -/
def exBatZero : Node := .elem "btTm" [("sName", "AUS")] [exInngsZero]

/-- A bowling-side element whose flags are the zero string. -/
def exBowlZero : Node := .elem "blTm" [("sName", "ENG")] [exInngsZero]

/-- An innings detail element (its contents are discarded). -/
def exDetail : Node := .elem "inngsdetail" [("noofovers", "90")] []

/-- A score element with one complete innings triple. -/
def exScore3 : Node := .elem "mscr" [] [exDetail, exBat, exBowl]

/-- A score element with two complete innings triples. -/
def exScore6 : Node :=
  .elem "mscr" [] [exDetail, exBat, exBowl, exDetail, exBat, exBowl]

/-- A score element whose first child is a whitespace (non-newline)
text node, followed by a complete batting and bowling pair: it has
only two non-whitespace children. -/
def exScoreWs : Node := .elem "mscr" [] [.text " ", exBat, exBowl]

/-- A batting-side element with no short-name attribute. -/
def exBatBad : Node := .elem "btTm" [] [exInngs]

/-- A score element whose batting side lacks its short-name. -/
def exScoreBad : Node := .elem "mscr" [] [exDetail, exBatBad, exBowl]

/-- A score element with a single child. -/
def exScoreShort : Node := .elem "mscr" [] [exDetail]

/-- A match element whose score element is malformed (one child). -/
def exBadMatch : Node :=
  .elem "match" [("datapath", "7")] [exState, exTme, exScoreShort]

/-- The innings value `_parse_score` returns on `exScore3`: the bare
innings dict (not a list). -/
def exInningsVal : PyVal :=
  .dict
    [("batting",
      .dict
        [("team", .str "AUS"), ("declare", .bool false), ("follow_on", .bool false),
         ("overs", .float { mantissa := 342, shift := 1 }), ("runs", .int 150),
         ("wickets", .int 4)]),
     ("bowling",
      .dict
        [("team", .str "ENG"), ("declare", .bool false), ("follow_on", .bool false),
         ("overs", .float { mantissa := 342, shift := 1 }), ("runs", .int 150),
         ("wickets", .int 4)])]

/-- A successful response carrying the tree of `exTree`. -/
def exResp200 : Response := { status_code := 200, tree := exTree }

/-- A failed response. -/
def exResp404 : Response := { status_code := 404, tree := exTree }

/-! Basic lemmas about the `Except` monad and options. -/

theorem except_bind_ok {α β : Type} {x : Except Err α} {f : α → Except Err β} {b : β} :
    (x >>= f) = .ok b ↔ ∃ a, x = .ok a ∧ f a = .ok b := by
  cases x <;> simp [Bind.bind, Except.bind]

theorem except_pure_eq {α : Type} {a : α} : (pure a : Except Err α) = .ok a := rfl

theorem not_errs_iff {α : Type} {x : Except Err α} : ¬ errs x ↔ ∃ a, x = .ok a := by
  cases x <;> simp [errs]

theorem errs_of_error {α : Type} {x : Except Err α} {e : Err} (h : x = .error e) :
    errs x := ⟨e, h⟩

theorem option_map_or {α β : Type} (f : α → β) (x y : Option α) :
    (x.or y).map f = (x.map f).or (y.map f) := by
  cases x <;> rfl

theorem getLast?_cons_or {α : Type} (a : α) (l : List α) :
    (a :: l).getLast? = l.getLast?.or (some a) := by
  induction l generalizing a with
  | nil => rfl
  | cons b l ih =>
      rw [List.getLast?_cons_cons, ih b]
      cases l.getLast? <;> simp

/-! Lemmas about the dict operations. -/

theorem dget_nil {V : Type} (k : String) : dget ([] : Dict V) k = none := rfl

theorem dget_cons {V : Type} (p : String × V) (d : Dict V) (k : String) :
    dget (p :: d) k = if p.1 = k then some p.2 else dget d k := by
  simp only [dget, List.find?_cons]
  by_cases h : p.1 = k <;> simp [h]

theorem dget_eq_none_of_not_mem {V : Type} {d : Dict V} {k : String}
    (h : k ∉ d.map Prod.fst) : dget d k = none := by
  unfold dget
  have hf : d.find? (fun p => decide (p.1 = k)) = none := by
    rw [List.find?_eq_none]
    intro q hq
    simp only [decide_eq_true_eq]
    intro hqk
    exact h (List.mem_map.mpr ⟨q, hq, hqk⟩)
  rw [hf]; rfl

theorem find_map_dset {V : Type} (d : Dict V) (k k' : String) (v : V) :
    (d.map (fun p => if p.1 = k then (k, v) else p)).find? (fun p => decide (p.1 = k')) =
      if k' = k then (d.find? (fun p => decide (p.1 = k))).map (fun _ => (k, v))
      else d.find? (fun p => decide (p.1 = k')) := by
  induction d with
  | nil => split <;> rfl
  | cons p d ih =>
      simp only [List.map_cons, List.find?_cons]
      by_cases hp : p.1 = k
      · rw [if_pos hp]
        by_cases hk : k' = k
        · subst hk
          simp [hp, ih]
        · have hk2 : k ≠ k' := fun h => hk h.symm
          have hp2 : p.1 ≠ k' := hp ▸ hk2
          simp [hk2, hp2, ih, hk]
      · rw [if_neg hp]
        by_cases hk : k' = k
        · subst hk
          simp [hp, ih]
        · by_cases hpk : p.1 = k'
          · simp [hpk, hk]
          · simp [hpk, ih, hk]

theorem dget_dset {V : Type} (d : Dict V) (k k' : String) (v : V) :
    dget (dset d k v) k' = if k' = k then some v else dget d k' := by
  unfold dget dset
  by_cases ha : d.any (fun p => decide (p.1 = k))
  · rw [if_pos ha, find_map_dset]
    by_cases hk : k' = k
    · rw [if_pos hk, if_pos hk]
      rcases List.any_eq_true.mp ha with ⟨p, hp, hpk⟩
      cases hf : d.find? (fun p => decide (p.1 = k)) with
      | none =>
          exact absurd (List.find?_eq_none.mp hf p hp) (by simpa using hpk)
      | some q => simp
    · rw [if_neg hk, if_neg hk]
  · rw [if_neg ha, List.find?_append]
    have hn : d.find? (fun p => decide (p.1 = k)) = none := by
      rw [List.find?_eq_none]
      intro p hp
      simp only [decide_eq_true_eq]
      intro hpk
      exact ha (List.any_eq_true.mpr ⟨p, hp, by simpa using hpk⟩)
    by_cases hk : k' = k
    · subst hk
      simp [hn]
    · have hk2 : k ≠ k' := fun h => hk h.symm
      simp only [List.find?_cons, List.find?_nil]
      simp [hk2, hk, Option.or_none]

theorem keysNodup_nil {V : Type} : KeysNodup ([] : Dict V) := by
  simp [KeysNodup]

theorem keysNodup_dset {V : Type} {d : Dict V} (k : String) (v : V)
    (h : KeysNodup d) : KeysNodup (dset d k v) := by
  unfold KeysNodup dset
  by_cases ha : d.any (fun p => decide (p.1 = k))
  · rw [if_pos ha]
    have hmap : (d.map (fun p => if p.1 = k then (k, v) else p)).map Prod.fst
        = d.map Prod.fst := by
      rw [List.map_map]
      apply List.map_congr_left
      intro p _
      by_cases hp : p.1 = k <;> simp [hp]
    rw [hmap]; exact h
  · rw [if_neg ha, List.map_append]
    rw [List.nodup_append]
    refine ⟨h, by simp, ?_⟩
    intro x hx hxk
    simp only [List.map_cons, List.map_nil, List.mem_singleton] at hxk
    subst hxk
    rcases List.mem_map.mp hx with ⟨p, hp, hpk⟩
    exact ha (List.any_eq_true.mpr ⟨p, hp, by simpa using hpk⟩)

theorem dget_dupdate {V : Type} (d e : Dict V) (k : String) (he : KeysNodup e) :
    dget (dupdate d e) k = (dget e k).or (dget d k) := by
  induction e generalizing d with
  | nil => simp [dupdate, dget, List.find?_nil]
  | cons p e ih =>
      have hmap : (p.1 :: e.map Prod.fst).Nodup := he
      have he' : KeysNodup e := (List.nodup_cons.mp hmap).2
      have hp : p.1 ∉ e.map Prod.fst := (List.nodup_cons.mp hmap).1
      show dget (dupdate (dset d p.1 p.2) e) k = _
      rw [ih (dset d p.1 p.2) he', dget_cons]
      by_cases hk : p.1 = k
      · subst hk
        have hnone : dget e p.1 = none := dget_eq_none_of_not_mem hp
        rw [hnone, if_pos rfl, dget_dset, if_pos rfl]
        simp
      · rw [if_neg hk, dget_dset]
        have hk2 : k ≠ p.1 := fun h => hk h.symm
        rw [if_neg hk2]

theorem lastDef_or {V : Type} (rs : List (Dict V)) (h : ∀ r ∈ rs, KeysNodup r) :
    ∀ (d : Dict V) (k : String), dget (rs.foldl dupdate d) k = (lastDef rs k).or (dget d k) := by
  induction rs with
  | nil => intro d k; simp [lastDef]
  | cons r rs ih =>
      intro d k
      have hr : KeysNodup r := h r (by simp)
      have hrs : ∀ x ∈ rs, KeysNodup x := fun x hx => h x (by simp [hx])
      show dget (rs.foldl dupdate (dupdate d r)) k = _
      rw [ih hrs (dupdate d r) k, dget_dupdate d r k hr, lastDef, ← Option.or_assoc]

theorem lastDef_all_same {V : Type} {rs : List (Dict V)} {k : String} {v : V}
    (hne : rs ≠ []) (h : ∀ r ∈ rs, dget r k = some v) : lastDef rs k = some v := by
  induction rs with
  | nil => exact absurd rfl hne
  | cons r rs ih =>
      rw [lastDef]
      rcases rs with _ | ⟨r2, rs⟩
      · rw [h r (by simp)]; rfl
      · rw [ih (by simp) (fun x hx => h x (by simp [List.mem_cons.mp hx]))]
        rfl

/-! Lemmas about attribute access. -/

theorem attr?_eq_some_iff {n : Node} {k : String} {v : String} :
    attr? n k = some v ↔ getItem n k = .ok v := by
  cases h : getItem n k <;> simp [attr?, h]

theorem attr?_isSome_iff {n : Node} {k : String} :
    (attr? n k).isSome ↔ ∃ v, getItem n k = .ok v := by
  cases h : getItem n k <;> simp [attr?, h]

theorem getItem_elem_eq {tag : String} {attrs : Dict String} {cs : List Node} {k : String} :
    getItem (.elem tag attrs cs) k =
      match dget attrs k with
      | some v => .ok v
      | none => .error .keyError := rfl

/-! Inversion of `mapM` over `Except`. -/

theorem mapM_ok_forall₂ {α β : Type} {f : α → Except Err β} :
    ∀ {l : List α} {r : List β}, l.mapM f = .ok r →
      List.Forall₂ (fun a b => f a = .ok b) l r := by
  intro l
  induction l with
  | nil =>
      intro r h
      rw [List.mapM_nil] at h
      cases h
      exact List.Forall₂.nil
  | cons a l ih =>
      intro r h
      rw [List.mapM_cons] at h
      rcases except_bind_ok.mp h with ⟨b, hb, h2⟩
      rcases except_bind_ok.mp h2 with ⟨rest, hrest, h3⟩
      cases h3
      exact List.Forall₂.cons hb (ih hrest)

theorem mapM_ok_length {α β : Type} {f : α → Except Err β} {l : List α} {r : List β}
    (h : l.mapM f = .ok r) : r.length = l.length :=
  (mapM_ok_forall₂ h).length_eq.symm

theorem forall₂_map_eq {α β γ : Type} {R : α → β → Prop} {l : List α} {r : List β}
    (h : List.Forall₂ R l r) {f : β → γ} {g : α → γ}
    (hf : ∀ a b, a ∈ l → R a b → f b = g a) : r.map f = l.map g := by
  induction h with
  | nil => rfl
  | @cons a b l r hab _ ih =>
      have htl : r.map f = l.map g := ih (fun x y hx hxy => hf x y (by simp [hx]) hxy)
      simp [htl, hf a b (by simp) hab]

/-! Lemmas about the field mapper. -/

theorem transfer_char (pairs : List (String × String)) (tag : String)
    (attrs : Dict String) (cs : List Node) (sink : Dict PyVal) :
    ∃ out, _transfer_dict_keys pairs (some (.elem tag attrs cs)) sink = .ok out ∧
      ∀ k, dget out k =
        (((pairs.filterMap (fun p => if p.2 = k then dget attrs p.1 else none)).getLast?).map
            PyVal.str).or (dget sink k) := by
  induction pairs generalizing sink with
  | nil =>
      refine ⟨sink, rfl, ?_⟩
      intro k
      simp [List.filterMap_nil]
  | cons p pairs ih =>
      cases hv : dget attrs p.1 with
      | none =>
          rcases ih sink with ⟨out, hout, hchar⟩
          refine ⟨out, ?_, ?_⟩
          · show (match getItem (Node.elem tag attrs cs) p.1 with
                  | .ok v => Except.ok (dset sink p.2 (PyVal.str v))
                  | .error .keyError => Except.ok sink
                  | .error e => Except.error e) >>= _ = _
            rw [getItem_elem_eq]
            rw [hv]
            exact hout
          · intro k
            have hfc : List.filterMap (fun q => if q.2 = k then dget attrs q.1 else none)
                (p :: pairs)
                = List.filterMap (fun q => if q.2 = k then dget attrs q.1 else none) pairs := by
              rw [List.filterMap_cons]
              by_cases hk : p.2 = k <;> simp [hk, hv]
            rw [hchar k, hfc]
      | some v =>
          rcases ih (dset sink p.2 (PyVal.str v)) with ⟨out, hout, hchar⟩
          refine ⟨out, ?_, ?_⟩
          · show (match getItem (Node.elem tag attrs cs) p.1 with
                  | .ok v => Except.ok (dset sink p.2 (PyVal.str v))
                  | .error .keyError => Except.ok sink
                  | .error e => Except.error e) >>= _ = _
            rw [getItem_elem_eq]
            rw [hv]
            exact hout
          · intro k
            rw [hchar k]
            by_cases hk : p.2 = k
            · subst hk
              have hfc : List.filterMap (fun q => if q.2 = p.2 then dget attrs q.1 else none)
                  (p :: pairs)
                  = v :: List.filterMap (fun q => if q.2 = p.2 then dget attrs q.1 else none)
                      pairs := by
                rw [List.filterMap_cons]
                simp [hv]
              rw [hfc, getLast?_cons_or, option_map_or, Option.or_assoc, dget_dset, if_pos rfl]
              rfl
            · have hfc : List.filterMap (fun q => if q.2 = k then dget attrs q.1 else none)
                  (p :: pairs)
                  = List.filterMap (fun q => if q.2 = k then dget attrs q.1 else none) pairs := by
                rw [List.filterMap_cons]
                simp [hk]
              rw [hfc, dget_dset]
              have hk2 : k ≠ p.2 := fun h => hk h.symm
              rw [if_neg hk2]

theorem transfer_ok_not_written {pairs : List (String × String)} {src : Option Node}
    {sink out : Dict PyVal} {k : String}
    (h : _transfer_dict_keys pairs src sink = .ok out)
    (hk : k ∉ pairs.map Prod.snd) : dget out k = dget sink k := by
  induction pairs generalizing sink with
  | nil => cases h; rfl
  | cons p pairs ih =>
      have hk1 : p.2 ≠ k := fun he => hk (by simp [he])
      have hk2 : k ∉ pairs.map Prod.snd := fun he => hk (by simp [he])
      rcases src with _ | n
      · exact absurd h (by simp [_transfer_dict_keys, List.foldlM, Bind.bind, Except.bind])
      · rcases hg : getItem n p.1 with e | v
        · rcases e with _ | _ | _ | _ | st
          · have h2 : _transfer_dict_keys pairs (some n) sink = .ok out := by
              revert h
              show (match getItem n p.1 with
                    | .ok v => Except.ok (dset sink p.2 (PyVal.str v))
                    | .error .keyError => Except.ok sink
                    | .error e => Except.error e) >>= _ = _ → _
              rw [hg]
              exact id
            exact ih h2 hk2
          all_goals
            exact absurd h (by
              show ¬((match getItem n p.1 with
                    | .ok v => Except.ok (dset sink p.2 (PyVal.str v))
                    | .error .keyError => Except.ok sink
                    | .error e => Except.error e) >>= _ = _)
              rw [hg]
              simp [Bind.bind, Except.bind])
        · have h2 : _transfer_dict_keys pairs (some n) (dset sink p.2 (PyVal.str v)) = .ok out := by
            revert h
            show (match getItem n p.1 with
                  | .ok v => Except.ok (dset sink p.2 (PyVal.str v))
                  | .error .keyError => Except.ok sink
                  | .error e => Except.error e) >>= _ = _ → _
            rw [hg]
            exact id
          rw [ih h2 hk2, dget_dset]
          have hk3 : k ≠ p.2 := fun h => hk1 h.symm
          rw [if_neg hk3]

theorem transfer_ok_nodup {pairs : List (String × String)} {src : Option Node}
    {sink out : Dict PyVal}
    (h : _transfer_dict_keys pairs src sink = .ok out)
    (hs : KeysNodup sink) : KeysNodup out := by
  induction pairs generalizing sink with
  | nil => cases h; exact hs
  | cons p pairs ih =>
      rcases src with _ | n
      · exact absurd h (by simp [_transfer_dict_keys, List.foldlM, Bind.bind, Except.bind])
      · rcases hg : getItem n p.1 with e | v
        · rcases e with _ | _ | _ | _ | st
          · have h2 : _transfer_dict_keys pairs (some n) sink = .ok out := by
              revert h
              show (match getItem n p.1 with
                    | .ok v => Except.ok (dset sink p.2 (PyVal.str v))
                    | .error .keyError => Except.ok sink
                    | .error e => Except.error e) >>= _ = _ → _
              rw [hg]
              exact id
            exact ih h2 hs
          all_goals
            exact absurd h (by
              show ¬((match getItem n p.1 with
                    | .ok v => Except.ok (dset sink p.2 (PyVal.str v))
                    | .error .keyError => Except.ok sink
                    | .error e => Except.error e) >>= _ = _)
              rw [hg]
              simp [Bind.bind, Except.bind])
        · have h2 : _transfer_dict_keys pairs (some n) (dset sink p.2 (PyVal.str v)) = .ok out := by
            revert h
            show (match getItem n p.1 with
                  | .ok v => Except.ok (dset sink p.2 (PyVal.str v))
                  | .error .keyError => Except.ok sink
                  | .error e => Except.error e) >>= _ = _ → _
            rw [hg]
            exact id
          exact ih h2 (keysNodup_dset p.2 (PyVal.str v) hs)

theorem transfer_none_error (p : String × String) (pairs : List (String × String))
    (sink : Dict PyVal) :
    _transfer_dict_keys (p :: pairs) none sink = .error .typeError := rfl

/-! Lemmas about the single-match parser. -/

theorem dget_addTeams_ne {data : Dict PyVal} {tv : Option (List PyVal)} {k : String}
    (h1 : k ≠ "team_one") (h2 : k ≠ "team_two") :
    dget (addTeams data tv) k = dget data k := by
  rcases tv with _ | ⟨_ | ⟨t1, _ | ⟨t2, rest⟩⟩⟩
  · rfl
  · rfl
  · rw [addTeams, dget_dset, if_neg h1]
  · show dget (dset (dset data "team_one" t1) "team_two" t2) k = _
    rw [dget_dset, if_neg h2, dget_dset, if_neg h1]

theorem addTeams_nodup {data : Dict PyVal} {tv : Option (List PyVal)}
    (h : KeysNodup data) : KeysNodup (addTeams data tv) := by
  rcases tv with _ | ⟨_ | ⟨t1, _ | ⟨t2, rest⟩⟩⟩
  · exact h
  · exact h
  · exact keysNodup_dset _ _ h
  · exact keysNodup_dset _ _ (keysNodup_dset _ _ h)

theorem single_ok_inv {m : Node} {data : Dict PyVal}
    (h : _parse_single_match m = .ok data) :
    ∃ d1 tv d2 t, _transfer_dict_keys base_keys (some m) [] = .ok d1 ∧
      _get_teams m = .ok tv ∧
      _transfer_dict_keys state_keys (findFirst "state" m) (addTeams d1 tv) = .ok d2 ∧
      _construct_time (findFirst "Tme" m) = .ok t ∧
      ((optTruthy (findFirst "mscr" m) = false ∧ data = dset d2 "time" (.time t)) ∨
       (∃ s sc, findFirst "mscr" m = some s ∧ nodeTruthy s = true ∧
          _parse_score s = .ok sc ∧
          data = dset (dset d2 "time" (.time t)) "score" sc)) := by
  unfold _parse_single_match at h
  rcases except_bind_ok.mp h with ⟨d1, h1, h⟩
  rcases except_bind_ok.mp h with ⟨tv, h2, h⟩
  rcases except_bind_ok.mp h with ⟨d2, h3, h⟩
  rcases except_bind_ok.mp h with ⟨t, h4, h⟩
  refine ⟨d1, tv, d2, t, h1, h2, h3, h4, ?_⟩
  cases hm : findFirst "mscr" m with
  | none =>
      rw [hm] at h
      simp only [except_pure_eq, Except.ok.injEq] at h
      exact Or.inl ⟨rfl, h.symm⟩
  | some s =>
      rw [hm] at h
      cases ht : nodeTruthy s with
      | false =>
          simp only [ht, Bool.false_eq_true, if_false, except_pure_eq, Except.ok.injEq] at h
          exact Or.inl ⟨ht, h.symm⟩
      | true =>
          simp only [ht, if_true] at h
          rcases except_bind_ok.mp h with ⟨sc, h5, h6⟩
          simp only [except_pure_eq, Except.ok.injEq] at h6
          exact Or.inr ⟨s, sc, rfl, ht, h5, h6.symm⟩

theorem single_ok_nodup {m : Node} {data : Dict PyVal}
    (h : _parse_single_match m = .ok data) : KeysNodup data := by
  rcases single_ok_inv h with ⟨d1, tv, d2, t, h1, _, h3, _, hbr⟩
  have hn1 : KeysNodup d1 := transfer_ok_nodup h1 keysNodup_nil
  have hn2 : KeysNodup d2 := transfer_ok_nodup h3 (addTeams_nodup hn1)
  rcases hbr with ⟨_, rfl⟩ | ⟨s, sc, _, _, _, rfl⟩
  · exact keysNodup_dset _ _ hn2
  · exact keysNodup_dset _ _ (keysNodup_dset _ _ hn2)

theorem base_filterMap_datapath (attrs : Dict String) :
    List.filterMap (fun q => if q.2 = "datapath" then dget attrs q.1 else none) base_keys
      = (dget attrs "datapath").toList := by
  cases h : dget attrs "datapath" <;> simp [base_keys, h]

theorem single_ok_datapath {m : Node} {data : Dict PyVal} {v : String}
    (hv : attr? m "datapath" = some v)
    (h : _parse_single_match m = .ok data) :
    dget data "datapath" = some (.str v) := by
  rcases single_ok_inv h with ⟨d1, tv, d2, t, h1, _, h3, _, hbr⟩
  rcases m with s | ⟨tag, attrs, cs⟩
  · exact absurd hv (by simp [attr?, getItem])
  · have hva : dget attrs "datapath" = some v := by
      have hg := attr?_eq_some_iff.mp hv
      rw [getItem_elem_eq] at hg
      cases hd : dget attrs "datapath" with
      | none => rw [hd] at hg; cases hg
      | some w => rw [hd] at hg; injection hg with hg; rw [hg]
    rcases transfer_char base_keys tag attrs cs [] with ⟨out, hout, hchar⟩
    have hd1 : out = d1 := by
      rw [hout] at h1
      injection h1
    have hdp1 : dget d1 "datapath" = some (.str v) := by
      rw [← hd1, hchar "datapath", base_filterMap_datapath, hva]
      rfl
    have hdp2 : dget d2 "datapath" = some (.str v) := by
      rw [transfer_ok_not_written h3 (by decide), dget_addTeams_ne (by decide) (by decide)]
      exact hdp1
    rcases hbr with ⟨_, rfl⟩ | ⟨s', sc, _, _, _, rfl⟩
    · rw [dget_dset, if_neg (by decide)]
      exact hdp2
    · rw [dget_dset, if_neg (by decide), dget_dset, if_neg (by decide)]
      exact hdp2

theorem except_ok_bind {α β : Type} (a : α) (f : α → Except Err β) :
    (Except.ok a >>= f) = f a := rfl

/-! Lemmas about the team extractor. -/

theorem teamVal_ok_inv {t : Node} {w : PyVal} (h : teamVal t = .ok w) :
    ∃ n i, getItem t "Name" = .ok n ∧ getItem t "id" = .ok i ∧
      w = PyVal.dict [("name", .str n), ("id", .str i)] := by
  unfold teamVal at h
  rcases except_bind_ok.mp h with ⟨n, hn, h2⟩
  rcases except_bind_ok.mp h2 with ⟨i, hi, h3⟩
  simp only [except_pure_eq, Except.ok.injEq] at h3
  exact ⟨n, i, hn, hi, h3.symm⟩

theorem get_teams_two {m e1 e2 : Node} {tv : Option (List PyVal)}
    (hTm : findAll "Tm" m = [e1, e2]) (h : _get_teams m = .ok tv) :
    ∃ n1 i1 n2 i2, getItem e1 "Name" = .ok n1 ∧ getItem e1 "id" = .ok i1 ∧
      getItem e2 "Name" = .ok n2 ∧ getItem e2 "id" = .ok i2 ∧
      tv = some [PyVal.dict [("name", .str n1), ("id", .str i1)],
                 PyVal.dict [("name", .str n2), ("id", .str i2)]] := by
  unfold _get_teams at h
  rw [hTm] at h
  rcases except_bind_ok.mp h with ⟨ts, hts, h2⟩
  have hf := mapM_ok_forall₂ hts
  cases hf with
  | cons h1 hrest =>
      cases hrest with
      | cons h2' hnil =>
          cases hnil
          rcases teamVal_ok_inv h1 with ⟨n1, i1, hn1, hi1, rfl⟩
          rcases teamVal_ok_inv h2' with ⟨n2, i2, hn2, hi2, rfl⟩
          simp only [List.length_cons, List.length_nil] at h2
          norm_num at h2
          simp only [except_pure_eq, Except.ok.injEq] at h2
          exact ⟨n1, i1, n2, i2, hn1, hi1, hn2, hi2, h2.symm⟩

theorem get_teams_ne_two {m : Node} {tv : Option (List PyVal)}
    (hlen : (findAll "Tm" m).length ≠ 2) (h : _get_teams m = .ok tv) : tv = none := by
  unfold _get_teams at h
  rcases except_bind_ok.mp h with ⟨ts, hts, h2⟩
  have hl : ts.length = (findAll "Tm" m).length := mapM_ok_length hts
  rw [if_pos (hl ▸ hlen)] at h2
  simp only [except_pure_eq, Except.ok.injEq] at h2
  exact h2.symm

/-! Lemmas about first occurrences. -/

theorem mem_firstOccur {α : Type} [DecidableEq α] {a : α} (l : List α) :
    a ∈ firstOccur l ↔ a ∈ l := by
  induction l using firstOccur.induct with
  | case1 => simp [firstOccur]
  | case2 b l ih =>
      rw [firstOccur]
      by_cases hab : a = b
      · subst hab; simp
      · simp only [List.mem_cons, hab, false_or]
        rw [ih, List.mem_filter]
        simp [hab]

theorem firstOccur_snoc {α : Type} [DecidableEq α] (l : List α) (a : α) :
    firstOccur (l ++ [a]) = if a ∈ l then firstOccur l else firstOccur l ++ [a] := by
  induction l using firstOccur.induct with
  | case1 => simp [firstOccur]
  | case2 b l ih =>
      show firstOccur (b :: (l ++ [a])) = _
      rw [firstOccur, List.filter_append]
      by_cases hab : a = b
      · subst hab
        simp only [ne_eq, not_true_eq_false, decide_False, List.filter_cons,
          Bool.false_eq_true, if_false, List.filter_nil, List.append_nil]
        rw [if_pos (by simp)]
        rw [firstOccur]
      · have hfa : [a].filter (fun x => decide (x ≠ b)) = [a] := by simp [hab]
        rw [hfa, ih]
        have hmem : a ∈ l.filter (fun x => decide (x ≠ b)) ↔ a ∈ l := by
          simp [List.mem_filter, hab]
        by_cases hal : a ∈ l
        · rw [if_pos (hmem.mpr hal), if_pos (by simp [hal]), firstOccur]
        · rw [if_neg (fun hc => hal (hmem.mp hc)), if_neg (by simp [hab, hal]), firstOccur]
          simp

/-! Characterization of the grouper. -/

theorem group_fold_char (key : String) (ms : List Node)
    (hall : ∀ x ∈ ms, (attr? x key).isSome) :
    ms.foldlM (fun gs item => do
        let v ← getItem item key
        pure (insertGroup gs v item)) ([] : List (String × List Node))
      = .ok ((firstOccur (ms.map (fun x => attrD x key))).map
          (fun v => (v, ms.filter (fun x => decide (attrD x key = v))))) := by
  induction ms using List.reverseRecOn with
  | nil => simp [firstOccur, except_pure_eq]
  | append_singleton ms m ih =>
      have hallms : ∀ x ∈ ms, (attr? x key).isSome := fun x hx => hall x (by simp [hx])
      have hm : (attr? m key).isSome := hall m (by simp)
      rcases Option.isSome_iff_exists.mp hm with ⟨v, hv⟩
      have hgi : getItem m key = .ok v := attr?_eq_some_iff.mp hv
      have hkD : attrD m key = v := by simp [attrD, hv]
      rw [List.foldlM_append, ih hallms, except_ok_bind]
      simp only [List.foldlM_cons, List.foldlM_nil, hgi, except_ok_bind, except_pure_eq,
        Except.ok.injEq]
      rw [List.map_append]
      simp only [List.map_cons, List.map_nil]
      rw [hkD, firstOccur_snoc]
      by_cases hseen : v ∈ ms.map (fun x => attrD x key)
      · rw [if_pos hseen]
        have hany : (List.map
            (fun v => (v, ms.filter (fun x => decide (attrD x key = v))))
            (firstOccur (ms.map (fun x => attrD x key)))).any
              (fun p => decide (p.1 = v)) = true := by
          apply List.any_eq_true.mpr
          refine ⟨(v, ms.filter (fun x => decide (attrD x key = v))), ?_, by simp⟩
          exact List.mem_map.mpr ⟨v, (mem_firstOccur _).mpr hseen, rfl⟩
        rw [insertGroup, if_pos hany, List.map_map]
        apply List.map_congr_left
        intro w _
        simp only [Function.comp_apply]
        by_cases hw : w = v
        · subst hw
          rw [if_pos rfl, List.filter_append]
          simp [hkD]
        · rw [if_neg hw, List.filter_append]
          have hvw : ¬ v = w := fun h => hw h.symm
          have hfm : List.filter (fun x => decide (attrD x key = w)) [m] = [] := by
            simp [hkD, hvw]
          rw [hfm, List.append_nil]
      · rw [if_neg hseen]
        have hany : (List.map
            (fun v => (v, ms.filter (fun x => decide (attrD x key = v))))
            (firstOccur (ms.map (fun x => attrD x key)))).any
              (fun p => decide (p.1 = v)) = false := by
          apply Bool.not_eq_true _ |>.mp
          intro hc
          rcases List.any_eq_true.mp hc with ⟨p, hp, hpv⟩
          rcases List.mem_map.mp hp with ⟨w, hw, rfl⟩
          simp only [decide_eq_true_eq] at hpv
          exact hseen (hpv ▸ (mem_firstOccur _).mp hw)
        rw [insertGroup, if_neg (by rw [hany]; exact Bool.false_ne_true), List.map_append]
        congr 1
        · apply List.map_congr_left
          intro w hw
          have hwv : w ≠ v := fun hc => hseen (hc ▸ (mem_firstOccur _).mp hw)
          have hvw : ¬ v = w := fun h => hwv h.symm
          rw [List.filter_append]
          have hfm : List.filter (fun x => decide (attrD x key = w)) [m] = [] := by
            simp [hkD, hvw]
          rw [hfm, List.append_nil]
        · simp only [List.map_singleton, List.filter_append]
          have h1 : List.filter (fun x => decide (attrD x key = v)) ms = [] := by
            rw [List.filter_eq_nil_iff]
            intro x hx
            simp only [decide_eq_true_eq]
            intro hxv
            exact hseen (List.mem_map.mpr ⟨x, hx, hxv⟩)
          have h2 : List.filter (fun x => decide (attrD x key = v)) [m] = [m] := by
            simp [hkD]
          rw [h1, h2]
          rfl

theorem group_by_char (key : String) (ms : List Node)
    (hall : ∀ x ∈ ms, (attr? x key).isSome) :
    _group_by key ms = .ok ((firstOccur (ms.map (fun x => attrD x key))).map
        (fun v => ms.filter (fun x => decide (attrD x key = v)))) := by
  unfold _group_by
  rw [group_fold_char key ms hall, except_ok_bind]
  simp [List.map_map, except_pure_eq]

/-! Lemmas about the match merger. -/

theorem join_fold_eq (ms : List Node) : ∀ d : Dict PyVal,
    ms.foldlM (fun data m => do
        let r ← _parse_single_match m
        pure (dupdate data r)) d
      = (ms.mapM _parse_single_match) >>= (fun rs => pure (rs.foldl dupdate d)) := by
  induction ms with
  | nil => intro d; rfl
  | cons m ms ih =>
      intro d
      rw [List.foldlM_cons, List.mapM_cons]
      cases hp : _parse_single_match m with
      | error e =>
          simp [hp, Bind.bind, Except.bind]
      | ok r =>
          simp only [hp, except_ok_bind, pure_bind]
          rw [ih (dupdate d r)]
          cases hms : ms.mapM _parse_single_match with
          | error e => simp [hms, Bind.bind, Except.bind]
          | ok rs => simp [hms, Bind.bind, Except.bind, except_pure_eq, List.foldl_cons]

theorem join_of_mapM {ms : List Node} {rs : List (Dict PyVal)}
    (h : ms.mapM _parse_single_match = .ok rs) :
    _join_match_group ms = .ok (rs.foldl dupdate []) := by
  unfold _join_match_group
  rw [join_fold_eq, h, except_ok_bind]
  rfl

theorem join_ok_inv {ms : List Node} {rec : Dict PyVal}
    (h : _join_match_group ms = .ok rec) :
    ∃ rs, ms.mapM _parse_single_match = .ok rs ∧ rec = rs.foldl dupdate [] := by
  unfold _join_match_group at h
  rw [join_fold_eq] at h
  cases hm : ms.mapM _parse_single_match with
  | error e =>
      rw [hm] at h
      exact absurd h (by simp [Bind.bind, Except.bind])
  | ok rs =>
      rw [hm, except_ok_bind] at h
      simp only [except_pure_eq, Except.ok.injEq] at h
      exact ⟨rs, rfl, h.symm⟩

theorem forall₂_mem_right {α β : Type} {R : α → β → Prop} :
    ∀ {l : List α} {r : List β}, List.Forall₂ R l r → ∀ {b}, b ∈ r → ∃ a ∈ l, R a b := by
  intro l r h
  induction h with
  | nil => intro b hb; cases hb
  | cons hab htl ih =>
      intro b hb
      rcases List.mem_cons.mp hb with rfl | hb2
      · exact ⟨_, by simp, hab⟩
      · rcases ih hb2 with ⟨a, ha, har⟩
        exact ⟨a, by simp [ha], har⟩

theorem join_datapath {g : List Node} {v : String} {rec : Dict PyVal}
    (hne : g ≠ []) (hkeys : ∀ x ∈ g, attr? x "datapath" = some v)
    (h : _join_match_group g = .ok rec) :
    dget rec "datapath" = some (.str v) := by
  rcases join_ok_inv h with ⟨rs, hmapM, rfl⟩
  have hf := mapM_ok_forall₂ hmapM
  have hnodup : ∀ r ∈ rs, KeysNodup r := by
    intro r hr
    rcases forall₂_mem_right hf hr with ⟨m, _, hm⟩
    exact single_ok_nodup hm
  rw [lastDef_or rs hnodup [] _, dget_nil, Option.or_none]
  apply lastDef_all_same
  · intro hc
    subst hc
    exact hne (List.length_eq_zero.mp (hf.length_eq.trans List.length_nil))
  · intro r hr
    rcases forall₂_mem_right hf hr with ⟨m, hmg, hm⟩
    exact single_ok_datapath (hkeys m hmg) hm

/-! Lemmas about the innings parser. -/

theorem inngsItem_ok_inv {side : Node} {key v : String}
    (h : parseSide.inngsItem side key = .ok v) :
    ∃ i, findFirst "Inngs" side = some i ∧ getItem i key = .ok v := by
  unfold parseSide.inngsItem at h
  cases hf : findFirst "Inngs" side with
  | none => rw [hf] at h; cases h
  | some i => rw [hf] at h; exact ⟨i, rfl, h⟩

theorem getItem_ok_isElem {n : Node} {k v : String} (h : getItem n k = .ok v) :
    isElemNode n = true := by
  cases n with
  | text s => cases h
  | elem t a c => rfl

theorem parseSide_char {s : Node} {tm : String} {i : Node} {dc fo ovS : String}
    {ov : FloatVal} {rS : String} {ri : Int} {wS : String} {wi : Int}
    (h1 : getItem s "sName" = .ok tm)
    (h2 : findFirst "Inngs" s = some i)
    (h3 : getItem i "Decl" = .ok dc) (h4 : getItem i "FollowOn" = .ok fo)
    (h5 : getItem i "ovrs" = .ok ovS) (h6 : pyFloat ovS = some ov)
    (h7 : getItem i "r" = .ok rS) (h8 : pyInt rS = some ri)
    (h9 : getItem i "wkts" = .ok wS) (h10 : pyInt wS = some wi) :
    parseSide s = .ok (.dict
      [("team", .str tm), ("declare", .bool (pyBoolStr dc)),
       ("follow_on", .bool (pyBoolStr fo)), ("overs", .float ov),
       ("runs", .int ri), ("wickets", .int wi)]) := by
  unfold parseSide
  simp only [parseSide.inngsItem, parseSide.toFl, parseSide.toInt, h1, h2, h3, h4, h5,
    h6, h7, h8, h9, h10, except_ok_bind]
  rfl

theorem parseSide_ok_req {s : Node} {r : PyVal} (h : parseSide s = .ok r) :
    hasReqAttrs s = true := by
  unfold parseSide at h
  rcases except_bind_ok.mp h with ⟨team, hteam, h⟩
  rcases except_bind_ok.mp h with ⟨declS, hdecl, h⟩
  rcases except_bind_ok.mp h with ⟨foS, hfo, h⟩
  rcases except_bind_ok.mp h with ⟨ovrsS, hovrs, h⟩
  rcases except_bind_ok.mp h with ⟨ovrs, _, h⟩
  rcases except_bind_ok.mp h with ⟨rS, hrS, h⟩
  rcases except_bind_ok.mp h with ⟨ri, _, h⟩
  rcases except_bind_ok.mp h with ⟨wS, hwS, h⟩
  have hElem : isElemNode s = true := getItem_ok_isElem hteam
  rcases inngsItem_ok_inv hdecl with ⟨i, hfi, hDecl⟩
  rcases inngsItem_ok_inv hfo with ⟨i2, hfi2, hFO⟩
  rcases inngsItem_ok_inv hovrs with ⟨i3, hfi3, hOv⟩
  rcases inngsItem_ok_inv hrS with ⟨i4, hfi4, hR⟩
  rcases inngsItem_ok_inv hwS with ⟨i5, hfi5, hW⟩
  rw [hfi] at hfi2 hfi3 hfi4 hfi5
  injection hfi2 with he2
  injection hfi3 with he3
  injection hfi4 with he4
  injection hfi5 with he5
  subst he2; subst he3; subst he4; subst he5
  have a1 : (attr? s "sName").isSome := attr?_isSome_iff.mpr ⟨team, hteam⟩
  have a2 : (attr? i "Decl").isSome := attr?_isSome_iff.mpr ⟨declS, hDecl⟩
  have a3 : (attr? i "FollowOn").isSome := attr?_isSome_iff.mpr ⟨foS, hFO⟩
  have a4 : (attr? i "ovrs").isSome := attr?_isSome_iff.mpr ⟨ovrsS, hOv⟩
  have a5 : (attr? i "r").isSome := attr?_isSome_iff.mpr ⟨rS, hR⟩
  have a6 : (attr? i "wkts").isSome := attr?_isSome_iff.mpr ⟨wS, hW⟩
  simp [hasReqAttrs, hElem, hfi, a1, a2, a3, a4, a5, a6]

theorem innings_ok_inv {d b w : Node} {v : PyVal} (h : _parse_innings d b w = .ok v) :
    ∃ vb vw, parseSide b = .ok vb ∧ parseSide w = .ok vw ∧
      v = .dict [("batting", vb), ("bowling", vw)] := by
  unfold _parse_innings at h
  rcases except_bind_ok.mp h with ⟨vb, hb, h2⟩
  rcases except_bind_ok.mp h2 with ⟨vw, hw, h3⟩
  simp only [except_pure_eq, Except.ok.injEq] at h3
  exact ⟨vb, vw, hb, hw, h3.symm⟩

theorem parse_score_elem_eq (tag : String) (attrs : Dict String) (cs : List Node) :
    _parse_score (.elem tag attrs cs) =
      match cs.filter (fun c => !isNewlineText c) with
      | d :: b :: w :: rest => do
          let score ← _parse_innings d b w
          if rest.isEmpty then pure score else .error .attributeError
      | _ => .error .typeError := rfl

theorem score_ok_inv {e : Node} {v : PyVal} (h : _parse_score e = .ok v) :
    ∃ tag attrs cs d b w, e = .elem tag attrs cs ∧
      cs.filter (fun c => !isNewlineText c) = [d, b, w] ∧
      _parse_innings d b w = .ok v := by
  rcases e with s | ⟨tag, attrs, cs⟩
  · exact absurd h (by simp [_parse_score])
  · rw [parse_score_elem_eq] at h
    cases hf : cs.filter (fun c => !isNewlineText c) with
    | nil => rw [hf] at h; cases h
    | cons d r1 =>
        cases r1 with
        | nil => rw [hf] at h; cases h
        | cons b r2 =>
            cases r2 with
            | nil => rw [hf] at h; cases h
            | cons w rest =>
                rw [hf] at h
                rcases except_bind_ok.mp h with ⟨sc, hsc, h2⟩
                cases hrest : rest with
                | nil =>
                    subst hrest
                    simp only [List.isEmpty_nil, if_true, except_pure_eq,
                      Except.ok.injEq] at h2
                    exact ⟨tag, attrs, cs, d, b, w, rfl, hf, h2 ▸ hsc⟩
                | cons x xs =>
                    subst hrest
                    simp only [List.isEmpty_cons, Bool.false_eq_true, if_false] at h2
                    cases h2

theorem score_short_errs {tag : String} {attrs : Dict String} {cs : List Node}
    (h : (cs.filter (fun c => !isNewlineText c)).length < 3) :
    errs (_parse_score (.elem tag attrs cs)) := by
  rw [parse_score_elem_eq]
  cases hf : cs.filter (fun c => !isNewlineText c) with
  | nil => exact ⟨.typeError, rfl⟩
  | cons d r1 =>
      cases r1 with
      | nil => exact ⟨.typeError, rfl⟩
      | cons b r2 =>
          cases r2 with
          | nil => exact ⟨.typeError, rfl⟩
          | cons w rest =>
              rw [hf] at h
              simp at h
              omega

theorem score_errs_propagates {m s : Node} (hm : findFirst "mscr" m = some s)
    (ht : nodeTruthy s = true) (hs : errs (_parse_score s)) :
    errs (_parse_single_match m) := by
  by_contra hc
  rcases not_errs_iff.mp hc with ⟨data, hdata⟩
  rcases single_ok_inv hdata with ⟨d1, tv, d2, t, _, _, _, _, hbr⟩
  rcases hbr with ⟨hfalse, _⟩ | ⟨s', sc, hm', ht', hsc, _⟩
  · rw [hm] at hfalse
    rw [show optTruthy (some s) = nodeTruthy s from rfl, ht] at hfalse
    cases hfalse
  · rw [hm] at hm'
    injection hm' with he
    subst he
    rcases hs with ⟨e, he⟩
    rw [hsc] at he
    cases he

/-! The claims. -/

/-- Claim C6: for every list of source-key/output-key pairs, every
source lookup and every destination, the field mapper never raises
when a source key is absent: it returns the mutated destination, and
looking up any key in the result gives the value of the last pair that
wrote it (the source value of its source key, when present), falling
back to the pre-existing destination entry — so absent source keys are
skipped silently and untouched destination entries survive. -/
theorem claim_C6 (pairs : List (String × String)) (tag : String) (attrs : Dict String)
    (cs : List Node) (sink : Dict PyVal) :
    ∃ out, _transfer_dict_keys pairs (some (.elem tag attrs cs)) sink = .ok out ∧
      ∀ k, dget out k =
        (((pairs.filterMap (fun p => if p.2 = k then dget attrs p.1 else none)).getLast?).map
            PyVal.str).or (dget sink k) :=
  transfer_char pairs tag attrs cs sink

/-- Claim C8: the time extractor concatenates the date attribute, the
start-time attribute and the zone marker GMT and hands the string to
the external date parser; on the date of 12 May 2016 with start time
1400 it produces the absolute timestamp 2016-05-12T14:00:00 at zero
UTC offset. -/
theorem claim_C8 :
    (∀ (tag : String) (attrs : Dict String) (cs : List Node) (d st : String),
       dget attrs "Dt" = some d → dget attrs "stTme" = some st →
       _construct_time (some (.elem tag attrs cs)) =
         match dateutilParse (d ++ " " ++ st ++ " GMT") with
         | some t => .ok t
         | none => .error .valueError) ∧
    dateutilParse "12 May 2016 1400 GMT" =
      some { year := 2016, month := 5, day := 12, hour := 14, minute := 0, offset := 0 } ∧
    _construct_time (some exTme) =
      .ok { year := 2016, month := 5, day := 12, hour := 14, minute := 0, offset := 0 } := by
  refine ⟨?_, rfl, rfl⟩
  intro tag attrs cs d st hd hst
  have g1 : getItem (Node.elem tag attrs cs) "Dt" = .ok d := by
    rw [getItem_elem_eq, hd]
  have g2 : getItem (Node.elem tag attrs cs) "stTme" = .ok st := by
    rw [getItem_elem_eq, hst]
  show (getItem (Node.elem tag attrs cs) "Dt" >>= fun date =>
      getItem (Node.elem tag attrs cs) "stTme" >>= fun start_time =>
        match dateutilParse (date ++ " " ++ start_time ++ " GMT") with
        | some t => pure t
        | none => .error .valueError) = _
  rw [g1, except_ok_bind, g2, except_ok_bind]
  cases dateutilParse (d ++ " " ++ st ++ " GMT") <;> rfl

/-- Witness for claim C8 at the concrete time element of the spec
example. -/
theorem claim_C8_witness :
    dget [("Dt", "12 May 2016"), ("stTme", "1400")] "Dt" = some "12 May 2016" ∧
    dget [("Dt", "12 May 2016"), ("stTme", "1400")] "stTme" = some "1400" ∧
    _construct_time (some (.elem "Tme" [("Dt", "12 May 2016"), ("stTme", "1400")] [])) =
      match dateutilParse ("12 May 2016" ++ " " ++ "1400" ++ " GMT") with
      | some t => .ok t
      | none => .error .valueError :=
  ⟨rfl, rfl,
    claim_C8.1 "Tme" [("Dt", "12 May 2016"), ("stTme", "1400")] [] "12 May 2016" "1400"
      rfl rfl⟩

/-- Claim C9: the orchestrator returns the parsed record list exactly
when the response status is 200, and on any other status raises a
fetch error carrying the observed status code. -/
theorem claim_C9 (r : Response) (recs : List (Dict PyVal)) :
    (request_matches r = .ok recs ↔
       r.status_code = 200 ∧ _parse_matches r.tree = .ok recs) ∧
    (r.status_code ≠ 200 →
       request_matches r = .error (.fetchError r.status_code)) := by
  unfold request_matches
  by_cases h : r.status_code = 200 <;> simp [h]

/-- Witness for claim C9: a 404 response raises a fetch error carrying
404; a 200 response carrying the example feed returns its two merged
records. -/
theorem claim_C9_witness :
    (exResp404.status_code ≠ 200 ∧
       request_matches exResp404 = .error (.fetchError 404)) ∧
    (exResp200.status_code = 200 ∧ request_matches exResp200 = .ok exRecs) :=
  ⟨⟨by decide, (claim_C9 exResp404 []).2 (by decide)⟩,
   ⟨rfl, (claim_C9 exResp200 exRecs).1.mpr ⟨rfl, by rfl⟩⟩⟩

/-- Claim C10: a match element with no state descendant fails to parse
(the subscript on the absent find result raises a type error, which
the field mapper does not catch — it swallows only the key-miss), so
the whole single-match parse errs rather than returning a record
without the state fields. -/
theorem claim_C10 (m : Node) (hstate : findFirst "state" m = none) :
    (∃ e, _parse_single_match m = .error e) ∧
    (∀ sink : Dict PyVal, _transfer_dict_keys state_keys none sink = .error .typeError) := by
  constructor
  · cases h1 : _transfer_dict_keys base_keys (some m) [] with
    | error e =>
        refine ⟨e, ?_⟩
        unfold _parse_single_match
        rw [h1]
        rfl
    | ok d1 =>
        cases h2 : _get_teams m with
        | error e =>
            refine ⟨e, ?_⟩
            unfold _parse_single_match
            rw [h1, except_ok_bind, h2]
            rfl
        | ok tv =>
            refine ⟨.typeError, ?_⟩
            unfold _parse_single_match
            rw [h1, except_ok_bind, h2, except_ok_bind]
            show (_transfer_dict_keys state_keys (findFirst "state" m)
                (addTeams d1 tv) >>= _) = _
            rw [hstate]
            rfl
  · intro sink
    exact transfer_none_error _ _ sink

/-- Witness for claim C10 at a concrete match element lacking a state
descendant. -/
theorem claim_C10_witness :
    findFirst "state" exNoState = none ∧
    (∃ e, _parse_single_match exNoState = .error e) :=
  ⟨rfl, (claim_C10 exNoState rfl).1⟩

/-- Claim C2: the match merger is field-wise last-write-wins over the
per-element parsed records: merging a group folds the records into one
dict by Python update, so looking up any key in the merged record
gives the value from the last record of the group that defines it (a
key set only by an earlier record survives), and the two worked
examples of the spec merge as stated. -/
theorem claim_C2 :
    (∀ (ms : List Node) (rs : List (Dict PyVal)),
       ms.mapM _parse_single_match = .ok rs →
       _join_match_group ms = .ok (rs.foldl dupdate [])) ∧
    (∀ (ms : List Node) (rs : List (Dict PyVal)) (k : String),
       ms.mapM _parse_single_match = .ok rs →
       ∃ rec, _join_match_group ms = .ok rec ∧ dget rec k = lastDef rs k) ∧
    dupdate [("a", PyVal.int 1)] [("a", PyVal.int 2), ("b", PyVal.int 3)]
      = [("a", PyVal.int 2), ("b", PyVal.int 3)] ∧
    dupdate [("a", PyVal.int 1), ("b", PyVal.int 3)] [("a", PyVal.int 2)]
      = [("a", PyVal.int 2), ("b", PyVal.int 3)] := by
  refine ⟨fun ms rs h => join_of_mapM h, ?_, rfl, rfl⟩
  intro ms rs k h
  refine ⟨rs.foldl dupdate [], join_of_mapM h, ?_⟩
  have hf := mapM_ok_forall₂ h
  have hnodup : ∀ r ∈ rs, KeysNodup r := by
    intro r hr
    rcases forall₂_mem_right hf hr with ⟨m, _, hm⟩
    exact single_ok_nodup hm
  rw [lastDef_or rs hnodup [] k, dget_nil, Option.or_none]

/-- Witness for claim C2: merging the two duplicate reports of match
123; the city attribute, present only in the second report, is read
from the merged record as the last definition. -/
theorem claim_C2_witness :
    [exMin, exFull].mapM _parse_single_match = .ok [exRecMin, exRecFull] ∧
    (∃ rec, _join_match_group [exMin, exFull] = .ok rec ∧
       dget rec "city" = lastDef [exRecMin, exRecFull] "city") :=
  ⟨by rfl, claim_C2.2.1 [exMin, exFull] [exRecMin, exRecFull] "city" (by rfl)⟩

/-- Claim C3 records a code bug: on a score element with one complete
innings triple the parser returns the innings dict itself — not a
one-element list — and on a score element with two innings triples it
raises an attribute error (the source calls a list append on the dict
returned for the first innings), where its own docstring promises a
list of inningses. -/
theorem claim_C3 :
    _parse_score exScore3 = .ok exInningsVal ∧
    isListVal exInningsVal = false ∧
    _parse_score exScore6 = .error .attributeError :=
  ⟨rfl, rfl, rfl⟩

/-- Counterexample for claim C4: the batting side of `exBatZero`
carries the declare attribute with the zero string, which the claim
says must coerce to false; the code coerces it by Python string
truthiness, so the parsed declare flag is true. -/
theorem claim_C4_counterexample :
    findFirst "Inngs" exBatZero = some exInngsZero ∧
    attr? exInngsZero "Decl" = some "0" ∧
    specBoolRule "0" = false ∧
    _parse_innings exDetail exBatZero exBowlZero = .ok (.dict
      [("batting", .dict
         [("team", .str "AUS"), ("declare", .bool true), ("follow_on", .bool true),
          ("overs", .float { mantissa := 342, shift := 1 }), ("runs", .int 150),
          ("wickets", .int 4)]),
       ("bowling", .dict
         [("team", .str "ENG"), ("declare", .bool true), ("follow_on", .bool true),
          ("overs", .float { mantissa := 342, shift := 1 }), ("runs", .int 150),
          ("wickets", .int 4)])]) :=
  ⟨rfl, rfl, by decide, rfl⟩

/-- Claim C4 as amended: the declare and follow-on flags of each
parsed side are the Python boolean coercion of the attribute strings —
true exactly when the string is non-empty; the empty string coerces to
false and every other string, the zero string included, coerces to
true. -/
theorem claim_C4 :
    (pyBoolStr "" = false ∧ pyBoolStr "0" = true) ∧
    (∀ (d b w ib iw : Node) (tb dcb fob ovSb : String) (ovb : FloatVal)
       (rSb : String) (rib : Int) (wSb : String) (wib : Int)
       (tw dcw fow ovSw : String) (ovw : FloatVal) (rSw : String) (riw : Int)
       (wSw : String) (wiw : Int),
       getItem b "sName" = .ok tb → findFirst "Inngs" b = some ib →
       getItem ib "Decl" = .ok dcb → getItem ib "FollowOn" = .ok fob →
       getItem ib "ovrs" = .ok ovSb → pyFloat ovSb = some ovb →
       getItem ib "r" = .ok rSb → pyInt rSb = some rib →
       getItem ib "wkts" = .ok wSb → pyInt wSb = some wib →
       getItem w "sName" = .ok tw → findFirst "Inngs" w = some iw →
       getItem iw "Decl" = .ok dcw → getItem iw "FollowOn" = .ok fow →
       getItem iw "ovrs" = .ok ovSw → pyFloat ovSw = some ovw →
       getItem iw "r" = .ok rSw → pyInt rSw = some riw →
       getItem iw "wkts" = .ok wSw → pyInt wSw = some wiw →
       _parse_innings d b w = .ok (.dict
         [("batting", .dict
            [("team", .str tb), ("declare", .bool (pyBoolStr dcb)),
             ("follow_on", .bool (pyBoolStr fob)), ("overs", .float ovb),
             ("runs", .int rib), ("wickets", .int wib)]),
          ("bowling", .dict
            [("team", .str tw), ("declare", .bool (pyBoolStr dcw)),
             ("follow_on", .bool (pyBoolStr fow)), ("overs", .float ovw),
             ("runs", .int riw), ("wickets", .int wiw)])])) := by
  refine ⟨⟨by decide, by decide⟩, ?_⟩
  intro d b w ib iw tb dcb fob ovSb ovb rSb rib wSb wib tw dcw fow ovSw ovw rSw riw
    wSw wiw hb1 hb2 hb3 hb4 hb5 hb6 hb7 hb8 hb9 hb10 hw1 hw2 hw3 hw4 hw5 hw6 hw7
    hw8 hw9 hw10
  unfold _parse_innings
  rw [parseSide_char hb1 hb2 hb3 hb4 hb5 hb6 hb7 hb8 hb9 hb10, except_ok_bind,
    parseSide_char hw1 hw2 hw3 hw4 hw5 hw6 hw7 hw8 hw9 hw10, except_ok_bind]
  rfl

/-- Witness for the amended claim C4 at the concrete sides whose Decl
and FollowOn attributes carry the zero string. -/
theorem claim_C4_witness :
    getItem exInngsZero "Decl" = .ok "0" ∧
    _parse_innings exDetail exBatZero exBowlZero = .ok (.dict
      [("batting", .dict
         [("team", .str "AUS"), ("declare", .bool (pyBoolStr "0")),
          ("follow_on", .bool (pyBoolStr "0")),
          ("overs", .float { mantissa := 342, shift := 1 }), ("runs", .int 150),
          ("wickets", .int 4)]),
       ("bowling", .dict
         [("team", .str "ENG"), ("declare", .bool (pyBoolStr "0")),
          ("follow_on", .bool (pyBoolStr "0")),
          ("overs", .float { mantissa := 342, shift := 1 }), ("runs", .int 150),
          ("wickets", .int 4)])]) :=
  ⟨rfl,
    claim_C4.2 exDetail exBatZero exBowlZero exInngsZero exInngsZero
      "AUS" "0" "0" "34.2" { mantissa := 342, shift := 1 } "150" 150 "4" 4
      "ENG" "0" "0" "34.2" { mantissa := 342, shift := 1 } "150" 150 "4" 4
      rfl rfl rfl rfl rfl rfl rfl rfl rfl rfl rfl rfl rfl rfl rfl rfl rfl rfl rfl rfl⟩

/-- Counterexample for claim C7: `exScoreWs` has only two
non-whitespace children (fewer than three), yet innings parsing
succeeds — the source filters only exact-newline text children, and
the leftover whitespace text node lands in the discarded detail
position. -/
theorem claim_C7_counterexample :
    ((childrenOf exScoreWs).filter (fun c => !isWsText c)).length = 2 ∧
    _parse_score exScoreWs = .ok exInningsVal :=
  ⟨rfl, rfl⟩

/-- Claim C7 as amended: innings parsing fails when the score element
has fewer than three children other than exact-newline text nodes; it
fails when a required attribute (short-name, or the declare,
follow-on, overs, runs or wickets attribute of the Inngs descendant)
is absent on the batting or bowling side of the first triple; and such
a failure propagates, aborting the enclosing match parse. -/
theorem claim_C7 :
    (∀ (tag : String) (attrs : Dict String) (cs : List Node),
       (cs.filter (fun c => !isNewlineText c)).length < 3 →
       errs (_parse_score (.elem tag attrs cs))) ∧
    (∀ (tag : String) (attrs : Dict String) (cs : List Node) (d b w : Node)
       (rest : List Node),
       cs.filter (fun c => !isNewlineText c) = d :: b :: w :: rest →
       (hasReqAttrs b = false ∨ hasReqAttrs w = false) →
       errs (_parse_score (.elem tag attrs cs))) ∧
    (∀ (m s : Node), findFirst "mscr" m = some s → nodeTruthy s = true →
       errs (_parse_score s) → errs (_parse_single_match m)) := by
  refine ⟨fun tag attrs cs h => score_short_errs h, ?_,
    fun m s hm ht hs => score_errs_propagates hm ht hs⟩
  intro tag attrs cs d b w rest hf hmiss
  by_contra hc
  rcases not_errs_iff.mp hc with ⟨v, hv⟩
  rcases score_ok_inv hv with ⟨tag2, attrs2, cs2, d2, b2, w2, heq, hf2, hinn⟩
  injection heq with he1 he2 he3
  subst he3
  rw [hf] at hf2
  injection hf2 with hd hf2
  injection hf2 with hb hf2
  injection hf2 with hw hrest
  subst hd; subst hb; subst hw
  rcases innings_ok_inv hinn with ⟨vb, vw, hpb, hpw, _⟩
  rcases hmiss with hmb | hmw
  · rw [parseSide_ok_req hpb] at hmb; cases hmb
  · rw [parseSide_ok_req hpw] at hmw; cases hmw

/-- Witness for the amended claim C7: a one-child score element fails;
a score element whose batting side lacks its short-name fails; and a
match whose score element is malformed fails to parse as a whole. -/
theorem claim_C7_witness :
    ((([exDetail] : List Node).filter (fun c => !isNewlineText c)).length < 3 ∧
       errs (_parse_score exScoreShort)) ∧
    ((([exDetail, exBatBad, exBowl] : List Node).filter (fun c => !isNewlineText c))
        = [exDetail, exBatBad, exBowl] ∧ hasReqAttrs exBatBad = false ∧
       errs (_parse_score exScoreBad)) ∧
    (findFirst "mscr" exBadMatch = some exScoreShort ∧
       nodeTruthy exScoreShort = true ∧ errs (_parse_single_match exBadMatch)) :=
  ⟨⟨by decide, claim_C7.1 "mscr" [] [exDetail] (by decide)⟩,
   ⟨rfl, rfl,
     claim_C7.2.1 "mscr" [] [exDetail, exBatBad, exBowl] exDetail exBatBad exBowl []
       rfl (Or.inl rfl)⟩,
   ⟨rfl, rfl,
     claim_C7.2.2 exBadMatch exScoreShort rfl rfl
       (claim_C7.1 "mscr" [] [exDetail] (by decide))⟩⟩

/-- Claim C5: when a parsed match element has exactly two team
descendants, the record carries the two name/id team pairs in document
order; when it has zero, one, or three or more, neither team key is
present in the record at all. -/
theorem claim_C5 (m : Node) (data : Dict PyVal)
    (h : _parse_single_match m = .ok data) :
    (∀ e1 e2, findAll "Tm" m = [e1, e2] →
       ∃ n1 i1 n2 i2, getItem e1 "Name" = .ok n1 ∧ getItem e1 "id" = .ok i1 ∧
         getItem e2 "Name" = .ok n2 ∧ getItem e2 "id" = .ok i2 ∧
         dget data "team_one" = some (.dict [("name", .str n1), ("id", .str i1)]) ∧
         dget data "team_two" = some (.dict [("name", .str n2), ("id", .str i2)])) ∧
    ((findAll "Tm" m).length ≠ 2 →
       dget data "team_one" = none ∧ dget data "team_two" = none) := by
  rcases single_ok_inv h with ⟨d1, tv, d2, t, h1, h2, h3, h4, hbr⟩
  have hfin : ∀ k, k ≠ "time" → k ≠ "score" → dget data k = dget d2 k := by
    rcases hbr with ⟨_, rfl⟩ | ⟨s, sc, _, _, _, rfl⟩
    · intro k hk1 _
      rw [dget_dset, if_neg hk1]
    · intro k hk1 hk2
      rw [dget_dset, if_neg hk2, dget_dset, if_neg hk1]
  constructor
  · intro e1 e2 hTm
    rcases get_teams_two hTm h2 with ⟨n1, i1, n2, i2, hn1, hi1, hn2, hi2, htv⟩
    subst htv
    refine ⟨n1, i1, n2, i2, hn1, hi1, hn2, hi2, ?_, ?_⟩
    · rw [hfin _ (by decide) (by decide), transfer_ok_not_written h3 (by decide)]
      show dget (dset (dset d1 "team_one" _) "team_two" _) "team_one" = _
      rw [dget_dset, if_neg (by decide), dget_dset, if_pos rfl]
    · rw [hfin _ (by decide) (by decide), transfer_ok_not_written h3 (by decide)]
      show dget (dset (dset d1 "team_one" _) "team_two" _) "team_two" = _
      rw [dget_dset, if_pos rfl]
  · intro hlen
    have htv : tv = none := get_teams_ne_two hlen h2
    subst htv
    have hb1 : dget d1 "team_one" = none := by
      rw [transfer_ok_not_written h1 (by decide), dget_nil]
    have hb2 : dget d1 "team_two" = none := by
      rw [transfer_ok_not_written h1 (by decide), dget_nil]
    constructor
    · rw [hfin _ (by decide) (by decide), transfer_ok_not_written h3 (by decide)]
      exact hb1
    · rw [hfin _ (by decide) (by decide), transfer_ok_not_written h3 (by decide)]
      exact hb2

/-- Witness for claim C5: the full example match has exactly the two
team elements and its record carries both team pairs; the minimal
example match has none and its record carries neither key. -/
theorem claim_C5_witness :
    (_parse_single_match exFull = .ok exRecFull ∧ findAll "Tm" exFull = [exTmA, exTmB] ∧
      (∃ n1 i1 n2 i2, getItem exTmA "Name" = .ok n1 ∧ getItem exTmA "id" = .ok i1 ∧
        getItem exTmB "Name" = .ok n2 ∧ getItem exTmB "id" = .ok i2 ∧
        dget exRecFull "team_one" = some (.dict [("name", .str n1), ("id", .str i1)]) ∧
        dget exRecFull "team_two" = some (.dict [("name", .str n2), ("id", .str i2)]))) ∧
    (_parse_single_match exMin = .ok exRecMin ∧ (findAll "Tm" exMin).length ≠ 2 ∧
      dget exRecMin "team_one" = none ∧ dget exRecMin "team_two" = none) :=
  ⟨⟨by rfl, rfl, (claim_C5 exFull exRecFull (by rfl)).1 exTmA exTmB rfl⟩,
   ⟨by rfl, by decide,
     (claim_C5 exMin exRecMin (by rfl)).2 (by decide)⟩⟩

/-- Claim C1: on a sequence of match elements that all carry the
datapath attribute, grouping by datapath succeeds, and whenever
merging every group succeeds the result has exactly one record per
distinct datapath value, in order of first occurrence — record `i`
carries the `i`-th first-occurring datapath. -/
theorem claim_C1 (ms : List Node)
    (hall : ∀ x ∈ ms, (attr? x "datapath").isSome) :
    (∃ gs, _group_by "datapath" ms = .ok gs) ∧
    (∀ gs recs, _group_by "datapath" ms = .ok gs →
       gs.mapM _join_match_group = .ok recs →
       recs.length = (firstOccur (ms.map (fun x => attrD x "datapath"))).length ∧
       recs.map (fun r => dget r "datapath")
         = (firstOccur (ms.map (fun x => attrD x "datapath"))).map
             (fun v => some (PyVal.str v))) := by
  have hchar := group_by_char "datapath" ms hall
  refine ⟨⟨_, hchar⟩, ?_⟩
  intro gs recs hgs hrecs
  rw [hchar] at hgs
  injection hgs with hgs
  subst hgs
  have hf := mapM_ok_forall₂ hrecs
  have hf2 := List.forall₂_map_left_iff.mp hf
  constructor
  · rw [← hf.length_eq, List.length_map]
  · refine forall₂_map_eq hf2 ?_
    intro v rec hv hjoin
    have hvin : v ∈ ms.map (fun x => attrD x "datapath") := (mem_firstOccur _).mp hv
    rcases List.mem_map.mp hvin with ⟨x, hx, hxv⟩
    have hxf : x ∈ ms.filter (fun y => decide (attrD y "datapath" = v)) :=
      List.mem_filter.mpr ⟨hx, by simp [hxv]⟩
    refine (join_datapath (List.ne_nil_of_mem hxf) ?_ hjoin).trans rfl
    intro y hy
    rcases List.mem_filter.mp hy with ⟨hyms, hyv⟩
    simp only [decide_eq_true_eq] at hyv
    rcases Option.isSome_iff_exists.mp (hall y hyms) with ⟨w, hw⟩
    rw [hw]
    have : attrD y "datapath" = w := by simp [attrD, hw]
    rw [this] at hyv
    rw [hyv]

/-- Witness for claim C1: the example feed with two duplicate reports
of match 123 followed by one report of match 456 groups into two
groups and merges into two records, in order 123 then 456. -/
theorem claim_C1_witness :
    (∀ x ∈ exMs, (attr? x "datapath").isSome) ∧
    _group_by "datapath" exMs = .ok exGroups ∧
    exGroups.mapM _join_match_group = .ok exRecs ∧
    (exRecs.length = (firstOccur (exMs.map (fun x => attrD x "datapath"))).length ∧
     exRecs.map (fun r => dget r "datapath")
       = (firstOccur (exMs.map (fun x => attrD x "datapath"))).map
           (fun v => some (PyVal.str v))) :=
  ⟨by decide, by rfl, by rfl,
    (claim_C1 exMs (by decide)).2 exGroups exRecs (by rfl) (by rfl)⟩

end CricketScores
